import Mathlib

/-!
Shallow embedding of the Hilaria transcription pipeline
(`prepare_csv.py`): the `page.line` addressing scheme (`LineRef`), the
CSV ingestor (`read_text`), the lint validators (`check_macrons`,
`check_punctuation`, `check_whitespace`) and the tagged-markup renderer
(`construct_sgml`).  Python strings are modelled as `List Char` (Python
indexes strings by code point, so a code-point list is the faithful
model); Python `int` is modelled as `Int`.
-/

namespace Hilaria

/-! ### Decimal rendering and parsing of integers

Python renders an `int` with an f-string (`f'{page}.{line}'`), i.e. the
usual decimal notation with a leading `-` for negatives, and parses with
`int(...)`, which accepts an optional sign followed by decimal digits.
(Python `int` additionally tolerates surrounding whitespace and interior
underscores; those forms never arise in this pipeline and are not
modelled.)  The renderer is written with an explicit fuel argument so
that it is structurally recursive; `natToChars` supplies enough fuel. -/

/-- Decimal digits of `n`, most significant first; `[]` when `n = 0`.
`fuel` bounds the recursion depth (any `fuel ≥ n` is enough). -/
def natToCharsAux : Nat → Nat → List Char
  | 0, _ => []
  | fuel + 1, n =>
      if n = 0 then []
      else natToCharsAux fuel (n / 10) ++ [Char.ofNat (48 + n % 10)]

/-- Python `str(n)` for a natural number `n`. -/
def natToChars (n : Nat) : List Char :=
  if n = 0 then ['0'] else natToCharsAux (n + 1) n

/-- Python `str(i)` for an integer `i`. -/
def intToChars (i : Int) : List Char :=
  if i < 0 then '-' :: natToChars i.natAbs else natToChars i.toNat

/-- Is `c` an ASCII decimal digit? -/
def isDigitChar (c : Char) : Bool :=
  48 ≤ c.toNat && c.toNat ≤ 57

/-- Numeric value of a digit character. -/
def digitVal (c : Char) : Nat :=
  c.toNat - 48

/-- Python `int(s)` on an unsigned token: at least one digit, digits
only.  Anything else raises `ValueError`, modelled as `none`. -/
def parseNatChars (s : List Char) : Option Nat :=
  if s ≠ [] ∧ s.all isDigitChar then
    some (s.foldl (fun a c => 10 * a + digitVal c) 0)
  else none

/-- Python `int(s)`: an optional leading minus sign, then digits. -/
def parseIntChars (s : List Char) : Option Int :=
  match s with
  | [] => none
  | c :: rest =>
      if c = '-' then (parseNatChars rest).map (fun n => -(n : Int))
      else (parseNatChars (c :: rest)).map (fun n => (n : Int))

/-- Python `s.split('.')`: split on every occurrence of `'.'`; the
result always has one more part than there are dots. -/
def splitOnDot : List Char → List (List Char)
  | [] => [[]]
  | c :: rest =>
      if c = '.' then [] :: splitOnDot rest
      else
        match splitOnDot rest with
        | [] => [[c]]
        | p :: ps => (c :: p) :: ps

/-! ### LineRef -/

/-- A `page.line` style manuscript reference (class `LineRef`). -/
structure LineRef where
  page : Int
  line : Int
  deriving DecidableEq, Repr

/-- `LineRef.__str__`: renders as `f'{page}.{line}'`. -/
def LineRef.toStr (r : LineRef) : List Char :=
  intToChars r.page ++ '.' :: intToChars r.line

/-- `LineRef.increment`: the line number advances by one.  In the
source this mutates `self.line`; state passed explicitly here, the
updated reference is returned. -/
def LineRef.increment (r : LineRef) : LineRef :=
  { page := r.page, line := r.line + 1 }

/-- `LineRef.from_str`: `page, line = map(int, string.split('.'))`.
The unpacking raises `ValueError` unless the split has exactly two
parts and both parse as integers. -/
def LineRef.from_str (s : List Char) : Option LineRef :=
  match splitOnDot s with
  | [ps, ls] =>
      match parseIntChars ps, parseIntChars ls with
      | some p, some l => some { page := p, line := l }
      | _, _ => none
  | _ => none

/-! ### Round-trip lemmas for `from_str` / `toStr` -/

theorem natToCharsAux_digits (fuel n : Nat) :
    ∀ c ∈ natToCharsAux fuel n, isDigitChar c = true := by
  induction fuel generalizing n with
  | zero => intro c hc; simp [natToCharsAux] at hc
  | succ fuel ih =>
      intro c hc
      by_cases h : n = 0
      · simp [natToCharsAux, h] at hc
      · simp only [natToCharsAux, if_neg h, List.mem_append,
          List.mem_singleton] at hc
        rcases hc with hc | hc
        · exact ih (n / 10) c hc
        · subst hc
          have hlt : n % 10 < 10 := Nat.mod_lt _ (by norm_num)
          interval_cases h : n % 10 <;> decide

theorem natToChars_digits (n : Nat) :
    ∀ c ∈ natToChars n, isDigitChar c = true := by
  intro c hc
  by_cases h : n = 0
  · simp [natToChars, h] at hc; subst hc; decide
  · simp only [natToChars, if_neg h] at hc
    exact natToCharsAux_digits _ _ c hc

theorem natToCharsAux_ne_nil (fuel n : Nat) (hn : n ≠ 0) :
    natToCharsAux (fuel + 1) n ≠ [] := by
  simp [natToCharsAux, hn]

theorem foldl_natToCharsAux (fuel : Nat) :
    ∀ n a, n ≤ fuel →
      (natToCharsAux fuel n).foldl (fun a c => 10 * a + digitVal c) a =
        a * 10 ^ (natToCharsAux fuel n).length + n := by
  induction fuel with
  | zero =>
      intro n a hn
      interval_cases n
      simp [natToCharsAux]
  | succ fuel ih =>
      intro n a hn
      by_cases h : n = 0
      · simp [natToCharsAux, h]
      · have hdiv : n / 10 ≤ fuel := by
          have : n / 10 < n := Nat.div_lt_self (Nat.pos_of_ne_zero h) (by norm_num)
          omega
        have hd : digitVal (Char.ofNat (48 + n % 10)) = n % 10 := by
          have hlt : n % 10 < 10 := Nat.mod_lt _ (by norm_num)
          interval_cases h : n % 10 <;> decide
        simp only [natToCharsAux, if_neg h, List.foldl_append, List.foldl_cons,
          List.foldl_nil, List.length_append, List.length_singleton]
        rw [ih (n / 10) a hdiv, hd]
        have : (a * 10 ^ (natToCharsAux fuel (n / 10)).length + n / 10) * 10 =
            a * 10 ^ ((natToCharsAux fuel (n / 10)).length + 1) + (n / 10) * 10 := by
          ring
        omega

theorem parseNatChars_natToChars (n : Nat) :
    parseNatChars (natToChars n) = some n := by
  by_cases h : n = 0
  · subst h; decide
  · have hne : natToChars n ≠ [] := by
      simp only [natToChars, if_neg h]
      exact natToCharsAux_ne_nil n n h
    have hall : (natToChars n).all isDigitChar = true :=
      List.all_eq_true.mpr (fun c hc => natToChars_digits n c hc)
    simp only [parseNatChars, if_pos (And.intro hne hall)]
    simp only [natToChars, if_neg h]
    rw [foldl_natToCharsAux (n + 1) n 0 (Nat.le_succ n)]
    simp

theorem parseIntChars_natToChars (n : Nat) :
    parseIntChars (natToChars n) = some (n : Int) := by
  cases hh : natToChars n with
  | nil =>
      exfalso
      by_cases h : n = 0
      · subst h; simp [natToChars] at hh
      · exact natToCharsAux_ne_nil n n h (by simpa [natToChars, h] using hh)
  | cons x xs =>
      have hx : isDigitChar x = true :=
        natToChars_digits n x (by rw [hh]; exact List.mem_cons_self x xs)
      have hxne : x ≠ '-' := by
        intro hcontra
        subst hcontra
        simp [isDigitChar] at hx
      have h2 : parseNatChars (x :: xs) = some n := by
        rw [← hh]; exact parseNatChars_natToChars n
      simp [parseIntChars, hxne, h2]

theorem parseIntChars_intToChars (i : Int) :
    parseIntChars (intToChars i) = some i := by
  by_cases h : i < 0
  · simp only [intToChars, if_pos h]
    have h1 : parseIntChars ('-' :: natToChars i.natAbs) =
        (parseNatChars (natToChars i.natAbs)).map (fun n => -(n : Int)) := rfl
    have h2 : ∀ k : Nat, (some k).map (fun n => -(n : Int)) = some (-(k : Int)) :=
      fun k => rfl
    rw [h1, parseNatChars_natToChars, h2]
    congr 1
    omega
  · simp only [intToChars, if_neg h]
    rw [parseIntChars_natToChars]
    congr 1
    omega

theorem splitOnDot_no_dot (l : List Char) (h : '.' ∉ l) :
    splitOnDot l = [l] := by
  induction l with
  | nil => rfl
  | cons c rest ih =>
      have hc : c ≠ '.' := fun hc => h (by simp [hc])
      have hrest : '.' ∉ rest := fun hr => h (by simp [hr])
      simp only [splitOnDot, if_neg hc, ih hrest]

theorem splitOnDot_append (l₁ l₂ : List Char) (h : '.' ∉ l₁) :
    splitOnDot (l₁ ++ '.' :: l₂) = l₁ :: splitOnDot l₂ := by
  induction l₁ with
  | nil => simp [splitOnDot]
  | cons c rest ih =>
      have hc : c ≠ '.' := fun hc => h (by simp [hc])
      have hrest : '.' ∉ rest := fun hr => h (by simp [hr])
      have h2 := ih hrest
      simp only [List.cons_append, splitOnDot, if_neg hc]
      rw [show rest.append ('.' :: l₂) = rest ++ '.' :: l₂ from rfl, h2]

theorem dot_not_mem_natToChars (n : Nat) : '.' ∉ natToChars n := by
  intro hmem
  have := natToChars_digits n '.' hmem
  simp [isDigitChar] at this

theorem dot_not_mem_intToChars (i : Int) : '.' ∉ intToChars i := by
  intro hmem
  by_cases h : i < 0
  · simp only [intToChars, if_pos h, List.mem_cons] at hmem
    rcases hmem with hmem | hmem
    · exact absurd hmem (by decide)
    · exact dot_not_mem_natToChars _ hmem
  · simp only [intToChars, if_neg h] at hmem
    exact dot_not_mem_natToChars _ hmem

/-! ### Ingestor (`read_text`)

`read_text` walks the data rows (the CSV header row has already been
consumed by `reader.__next__()`; file I/O is out of scope).  Each row
exposes `row[0]` (address token), `row[2]` (Coptic text) and `row[7]`
(editorial note).  The running cursor `ref` starts at the sentinel
`LineRef(0,0)`.  A parsable token becomes the new cursor, after a
numbering-gap check against the old cursor; an unparsable token
(`ValueError`) falls back to `ref.increment()`.  Every emitted `Line`
carries a fresh copy of the cursor value. -/

/-- The fields of interest of one CSV data row. -/
structure Row where
  token : List Char
  coptic : List Char
  note : List Char
  deriving DecidableEq, Repr

/-- A line of Coptic text with associated reference and note
(class `Line`). -/
structure Line where
  ref : LineRef
  coptic : List Char
  note : List Char
  deriving DecidableEq, Repr

/-- Result of ingestion: the document, the numbering-gap warnings
printed along the way (each recording the explicit new reference and
the cursor it followed), and the longest text length. -/
structure IngestResult where
  text : List Line
  warnings : List (LineRef × LineRef)
  longest : Nat
  deriving DecidableEq, Repr

/-- The `try`/`except ValueError` block of `read_text`: the resolved
reference for a row given the current cursor. -/
def resolveRef (ref : LineRef) (token : List Char) : LineRef :=
  match LineRef.from_str token with
  | some newref => newref
  | none => ref.increment

/-- The numbering-gap warning(s) the row's token produces against the
current cursor: one when the token parses to a same-page reference
whose line is not `cursor.line + 1`, none otherwise. -/
def gapWarning (ref : LineRef) (token : List Char) : List (LineRef × LineRef) :=
  match LineRef.from_str token with
  | some newref =>
      if newref.page = ref.page ∧ newref.line ≠ ref.line + 1 then [(newref, ref)]
      else []
  | none => []

/-- The row loop of `read_text`. -/
def read_textAux (ref : LineRef) (longest : Nat) : List Row → IngestResult
  | [] => { text := [], warnings := [], longest := longest }
  | row :: rest =>
      let newref := resolveRef ref row.token
      let r := read_textAux newref (max longest row.coptic.length) rest
      { text := { ref := newref, coptic := row.coptic, note := row.note } :: r.text,
        warnings := gapWarning ref row.token ++ r.warnings,
        longest := r.longest }

/-- `read_text`, applied to the data rows of the CSV file. -/
def read_text (rows : List Row) : IngestResult :=
  read_textAux { page := 0, line := 0 } 0 rows

theorem read_textAux_text_length (rows : List Row) (ref : LineRef) (l : Nat) :
    (read_textAux ref l rows).text.length = rows.length := by
  induction rows generalizing ref l with
  | nil => rfl
  | cons row rest ih => simp [read_textAux, ih]

theorem read_text_text_length (rows : List Row) :
    (read_text rows).text.length = rows.length :=
  read_textAux_text_length rows _ _

theorem read_textAux_get_zero (ref : LineRef) (l : Nat) (row : Row)
    (rest : List Row) (h : 0 < (read_textAux ref l (row :: rest)).text.length) :
    ((read_textAux ref l (row :: rest)).text.get ⟨0, h⟩).ref = resolveRef ref row.token := by
  simp [read_textAux]

theorem read_textAux_get_succ (rows : List Row) :
    ∀ (ref : LineRef) (l : Nat) (i : Nat)
      (hi : i + 1 < rows.length)
      (ht : i + 1 < (read_textAux ref l rows).text.length)
      (ht0 : i < (read_textAux ref l rows).text.length),
      ((read_textAux ref l rows).text.get ⟨i + 1, ht⟩).ref =
        resolveRef (((read_textAux ref l rows).text.get ⟨i, ht0⟩).ref)
          (rows.get ⟨i + 1, hi⟩).token := by
  induction rows with
  | nil => intro ref l i hi; simp at hi
  | cons row rest ih =>
      intro ref l i hi ht ht0
      match rest, i with
      | row2 :: rest2, 0 =>
          simp [read_textAux]
      | row2 :: rest2, i + 1 =>
          have hi2 : i + 1 < (row2 :: rest2).length := by
            simpa using Nat.lt_of_succ_lt_succ hi
          have ht2 : i + 1 < (read_textAux (resolveRef ref row.token)
              (max l row.coptic.length) (row2 :: rest2)).text.length := by
            rw [read_textAux_text_length]; exact hi2
          have ht02 : i < (read_textAux (resolveRef ref row.token)
              (max l row.coptic.length) (row2 :: rest2)).text.length := by
            rw [read_textAux_text_length]; omega
          have := ih (resolveRef ref row.token) (max l row.coptic.length) i hi2 ht2 ht02
          simpa only [read_textAux, List.get_cons_succ] using this

theorem read_textAux_all_fail (rows : List Row) :
    ∀ (ref : LineRef) (l : Nat),
      (∀ r ∈ rows, LineRef.from_str r.token = none) →
      ∀ (i : Nat) (hi : i < (read_textAux ref l rows).text.length),
        ((read_textAux ref l rows).text.get ⟨i, hi⟩).ref =
          { page := ref.page, line := ref.line + (i : Int) + 1 } := by
  induction rows with
  | nil => intro ref l hall i hi; simp [read_textAux] at hi
  | cons row rest ih =>
      intro ref l hall i hi
      have hrow : LineRef.from_str row.token = none :=
        hall row (List.mem_cons_self row rest)
      have hres : resolveRef ref row.token = ref.increment := by
        simp [resolveRef, hrow]
      match i with
      | 0 =>
          simp [read_textAux, hres, LineRef.increment]
      | i + 1 =>
          have hrest : ∀ r ∈ rest, LineRef.from_str r.token = none :=
            fun r hr => hall r (List.mem_cons_of_mem row hr)
          have hi2 : i < (read_textAux (resolveRef ref row.token)
              (max l row.coptic.length) rest).text.length := by
            rw [read_textAux_text_length]
            have := hi
            simp only [read_textAux, List.length_cons, read_textAux_text_length] at this
            omega
          have := ih (resolveRef ref row.token) (max l row.coptic.length) hrest i hi2
          simp only [read_textAux, List.get_cons_succ]
          rw [this, hres]
          simp only [LineRef.increment]
          congr 1
          push_cast
          ring

/-! ### Validators

Each validator is a read-only pass over the document; we model the
diagnostics each line produces. -/

/-- Python `str.isspace` restricted to the ASCII whitespace characters
(space, tab, newline, vertical tab, form feed, carriage return); the
full Python predicate additionally accepts rarer Unicode space code
points which never occur in this pipeline. -/
def pyIsSpace (c : Char) : Bool :=
  c = ' ' || c = '\t' || c = '\n' || c = '\x0b' || c = '\x0c' || c = '\r'

/-- Python `str.strip()`: remove leading and trailing whitespace. -/
def pyStrip (s : List Char) : List Char :=
  ((s.dropWhile pyIsSpace).reverse.dropWhile pyIsSpace).reverse

/-- Python `s[0].isspace()` (equally `s[:1].isspace()`: on a nonempty
string the slice `[:1]` is exactly the first character, and on the
empty string `''.isspace()` is `False`). -/
def firstCharIsSpace (s : List Char) : Bool :=
  match s with
  | [] => false
  | c :: _ => pyIsSpace c

/-- The whitespace diagnostics of `check_whitespace`, with the text
excerpts each message shows. -/
inductive WsWarning
  | extraNewline (shown : List Char)
  | leadingAndTrailing (head tail : List Char)
  | leading (head : List Char)
  | trailing (tail : List Char)
  deriving DecidableEq, Repr

/-- The per-line body of `check_whitespace`.  Note the source slip on
the `trailing` flag: it is computed from `line.coptic[:1]` — the
first character again — rather than the last character `[-1:]`. -/
def check_whitespace_line (coptic : List Char) : Option WsWarning :=
  if coptic ≠ pyStrip coptic then
    let leading := firstCharIsSpace coptic
    let trailing := firstCharIsSpace coptic
    if coptic.getLast? = some '\n' then
      some (WsWarning.extraNewline ((coptic.drop (coptic.length - 10)).dropLast))
    else if leading && trailing then
      some (WsWarning.leadingAndTrailing (coptic.take 5)
        (coptic.drop (coptic.length - 5)))
    else if leading then
      some (WsWarning.leading (coptic.take 10))
    else
      some (WsWarning.trailing (coptic.drop (coptic.length - 10)))
  else none

/-- `check_whitespace` over the whole document. -/
def check_whitespace (text : List Line) : List (LineRef × WsWarning) :=
  text.filterMap fun line =>
    (check_whitespace_line line.coptic).map fun w => (line.ref, w)

/-- Python `s.find(c)` for a single character `c`: offset of the first
occurrence, `-1` when absent. -/
def pyFind (c : Char) : List Char → Int
  | [] => -1
  | x :: rest =>
      if x = c then 0
      else
        let r := pyFind c rest
        if r = -1 then -1 else r + 1

/-- The punctuation diagnostics of `check_punctuation`, with the
offset whose column the caret line points at. -/
inductive PunctError
  | period (offset : Int)
  | comma (offset : Int)
  deriving DecidableEq, Repr

/-- The per-line body of `check_punctuation`.  Note the source slip in
the comma branch: the reported offset is `line.coptic.find('.')` — a
period search (necessarily `-1` there) — not `find(',')`. -/
def check_punctuation_line (coptic : List Char) : Option PunctError :=
  if '.' ∈ coptic then some (PunctError.period (pyFind '.' coptic))
  else if ',' ∈ coptic then some (PunctError.comma (pyFind '.' coptic))
  else none

/-- `check_punctuation` over the whole document. -/
def check_punctuation (text : List Line) : List (LineRef × PunctError) :=
  text.filterMap fun line =>
    (check_punctuation_line line.coptic).map fun e => (line.ref, e)

/-- Offsets (ascending) of every occurrence of `c` in the line,
starting from position `base`: the value the `index`/`find` loop in
`check_macrons` accumulates into `bars`. -/
def charOffsetsAux (c : Char) : List Char → Int → List Int
  | [], _ => []
  | x :: rest, base =>
      if x = c then base :: charOffsetsAux c rest (base + 1)
      else charOffsetsAux c rest (base + 1)

/-- Offsets of every occurrence of `c`, from the start of the line. -/
def charOffsets (c : Char) (s : List Char) : List Int :=
  charOffsetsAux c s 0

/-- The adjacent-macron scan of `check_macrons`: one warning for every
occurrence offset that equals the previous offset plus 2, with the
scan variable `last` initialized to `-2`. -/
def adjacentMacronAux : Int → List Int → Nat
  | _, [] => 0
  | last, m :: rest => (if m = last + 2 then 1 else 0) + adjacentMacronAux m rest

/-- Number of adjacent-macron warnings `check_macrons` prints for one
line: the scan only runs when the line holds more than one combining
macron (U+0304). -/
def check_macrons_adjacent (coptic : List Char) : Nat :=
  if 1 < coptic.count '\u0304' then
    adjacentMacronAux (-2) (charOffsets '\u0304' coptic)
  else 0

/-- Modelled from the spec sentence for the adjacent-macron rule: two
successive occurrence offsets differ by exactly 2 (one base character
between the macrons). -/
def specSuccGapTwo : List Int → Bool
  | m :: n :: rest => (n = m + 2) || specSuccGapTwo (n :: rest)
  | _ => false

theorem adjacentMacronAux_pos_iff (l : List Int) :
    ∀ last : Int,
      0 < adjacentMacronAux last l ↔
        l.head? = some (last + 2) ∨ specSuccGapTwo l = true := by
  induction l with
  | nil => intro last; simp [adjacentMacronAux, specSuccGapTwo]
  | cons m rest ih =>
      intro last
      have hrest := ih m
      have hspec : specSuccGapTwo (m :: rest) = true ↔
          rest.head? = some (m + 2) ∨ specSuccGapTwo rest = true := by
        cases rest with
        | nil => simp [specSuccGapTwo]
        | cons n rest2 =>
            simp only [specSuccGapTwo, Bool.or_eq_true, decide_eq_true_eq,
              List.head?_cons, Option.some.injEq]
      by_cases hm : m = last + 2
      · have h1 : 0 < adjacentMacronAux last (m :: rest) := by
          simp [adjacentMacronAux, if_pos hm]
        have h2 : (m :: rest).head? = some (last + 2) := by
          rw [List.head?_cons, hm]
        exact iff_of_true h1 (Or.inl h2)
      · have h1 : adjacentMacronAux last (m :: rest) = adjacentMacronAux m rest := by
          simp [adjacentMacronAux, hm]
        rw [h1, hrest, hspec, List.head?_cons]
        constructor
        · intro h
          exact Or.inr h
        · intro h
          rcases h with h | h
          · exact absurd (Option.some.inj h) hm
          · exact h

/-- C4 core: parsing the rendering of any reference recovers it. -/
theorem from_str_toStr (r : LineRef) : LineRef.from_str r.toStr = some r := by
  have hsplit : splitOnDot (intToChars r.page ++ '.' :: intToChars r.line) =
      [intToChars r.page, intToChars r.line] := by
    rw [splitOnDot_append _ _ (dot_not_mem_intToChars r.page),
      splitOnDot_no_dot _ (dot_not_mem_intToChars r.line)]
  simp only [LineRef.from_str, LineRef.toStr, hsplit,
    parseIntChars_intToChars r.page, parseIntChars_intToChars r.line]

/-! ### Tagged-markup renderer (`construct_sgml`)

The renderer walks the document, opening a page-break tag whenever the
page changes (closing the previous one first — note Python's
`if page:` is falsy both for `None` and for page number `0`), and
emitting one `lb` tag per line around the converted text. -/

/-- Python `s.replace(old, new)` for a nonempty pattern `pat`: replace
each non-overlapping occurrence of `pat` by `rep`, scanning left to
right.  `fuel` bounds the recursion depth (any `fuel ≥ len s` is
enough, since each step consumes at least one character); the pipeline
only substitutes the nonempty patterns `*` and `(sic)`. -/
def pyReplaceAux (pat rep : List Char) : Nat → List Char → List Char
  | 0, s => s
  | _ + 1, [] => []
  | fuel + 1, c :: rest =>
      if pat ≠ [] ∧ pat.isPrefixOf (c :: rest) then
        rep ++ pyReplaceAux pat rep fuel ((c :: rest).drop pat.length)
      else c :: pyReplaceAux pat rep fuel rest

/-- Python `s.replace(old, new)`. -/
def pyReplace (s pat rep : List Char) : List Char :=
  pyReplaceAux pat rep s.length s

/-- The `*` substitution target in `construct_sgml`. -/
def pbEdiTag : List Char := "<pb edi=\"M.583\">".toList

/-- The `(sic)` pattern. -/
def sicPat : List Char := "(sic)".toList

/-- The `(sic)` substitution target. -/
def noteSicTag : List Char := "<note note=\"sic\">".toList

/-- The inline-markup substitution of `construct_sgml`: first
`*` ↦ `<pb edi="M.583">`, then `(sic)` ↦ `<note note="sic">`. -/
def convertInline (coptic : List Char) : List Char :=
  pyReplace (pyReplace coptic ['*'] pbEdiTag) sicPat noteSicTag

/-- The full per-line text conversion of `construct_sgml`: inline
substitution, then the word-continuation rule — a trailing hyphen is
dropped, otherwise an underscore is appended. -/
def convertLineText (coptic : List Char) : List Char :=
  let conv := convertInline coptic
  if conv.getLast? = some '-' then conv.dropLast else conv ++ ['_']

/-- The `<lb …>` tag emitted for one line. -/
def lbTag (line : Int) (conv : List Char) : List Char :=
  "<lb ed=\"Drescher\" n=\"".toList ++ intToChars line ++
    "\">".toList ++ conv ++ "</lb>\n".toList

/-- The `<pb …>` tag opening a page. -/
def pbOpenTag (page : Int) : List Char :=
  "<pb ed=\"Drescher\" n=\"".toList ++ intToChars page ++ "\">\n".toList

/-- `line.ref.page != page` on the loop variable `page`, which starts
as `None`. -/
def pageDiffers : Option Int → Int → Bool
  | none, _ => true
  | some q, p => p ≠ q

/-- Python truthiness of the loop variable `page` (`if page:`): falsy
for `None` and for page number `0`. -/
def pageTruthy : Option Int → Bool
  | none => false
  | some p => p ≠ 0

/-- The loop of `construct_sgml`. -/
def construct_sgmlAux (page : Option Int) : List Line → List Char
  | [] => []
  | line :: rest =>
      (if pageDiffers page line.ref.page then
        (if pageTruthy page then "</pb>\n".toList else []) ++ pbOpenTag line.ref.page
      else []) ++
      lbTag line.ref.line (convertLineText line.coptic) ++
      construct_sgmlAux (some line.ref.page) rest

/-- `construct_sgml`: doctype, the rendered lines, the final closing
page tag. -/
def construct_sgml (text : List Line) : List Char :=
  "<!DOCTYPE SGML>\n".toList ++ construct_sgmlAux none text ++ "</pb>".toList

/-! ### Lemmas about `pyReplace` and the trailing-hyphen rule -/

theorem pyReplaceAux_nil_input (pat rep : List Char) (fuel : Nat) :
    pyReplaceAux pat rep fuel [] = [] := by
  cases fuel <;> rfl

theorem pyReplaceAux_ne_nil (pat rep : List Char) (hrep : rep ≠ []) :
    ∀ (fuel : Nat) (s : List Char), s ≠ [] → pyReplaceAux pat rep fuel s ≠ [] := by
  intro fuel s hs
  match fuel, s with
  | 0, s => exact hs
  | _ + 1, [] => exact absurd rfl hs
  | fuel + 1, c :: rest =>
      simp only [pyReplaceAux]
      split
      · simp [hrep]
      · simp

theorem getLast?_eq_some_mem {l : List Char} {a : Char}
    (h : l.getLast? = some a) : a ∈ l := by
  obtain ⟨hne, heq⟩ := List.mem_getLast?_eq_getLast h
  rw [heq]
  exact List.getLast_mem hne

theorem pyReplaceAux_getLast_hyphen (pat rep : List Char) (hpat : '-' ∉ pat)
    (hpatne : pat ≠ []) (hrepne : rep ≠ []) (hrep : rep.getLast? ≠ some '-') :
    ∀ (fuel : Nat) (s : List Char), s.length ≤ fuel →
      ((pyReplaceAux pat rep fuel s).getLast? = some '-' ↔
        s.getLast? = some '-') := by
  intro fuel
  induction fuel with
  | zero => intro s _; exact Iff.rfl
  | succ fuel ih =>
      intro s hs
      match s with
      | [] => exact Iff.rfl
      | c :: rest =>
          by_cases hpre : pat.isPrefixOf (c :: rest)
          · have hcond : pat ≠ [] ∧ pat.isPrefixOf (c :: rest) := ⟨hpatne, hpre⟩
            simp only [pyReplaceAux, if_pos hcond]
            obtain ⟨d, hd⟩ := (List.isPrefixOf_iff_prefix.mp hpre)
            have hdrop : (c :: rest).drop pat.length = d := by
              rw [← hd, List.drop_left]
            have hplen : 0 < pat.length := List.length_pos.mpr hpatne
            have hdlen : d.length ≤ fuel := by
              have := congrArg List.length hd
              simp only [List.length_append, List.length_cons] at this hs
              omega
            rw [hdrop]
            by_cases hdnil : d = []
            · subst hdnil
              rw [pyReplaceAux_nil_input, List.append_nil]
              have hleft : rep.getLast? = some '-' → False := fun hc => hrep hc
              have hright : (c :: rest).getLast? = some '-' → False := by
                intro hc
                rw [← hd, List.append_nil] at hc
                exact hpat (getLast?_eq_some_mem hc)
              exact iff_of_false hleft hright
            · have hR : pyReplaceAux pat rep fuel d ≠ [] :=
                pyReplaceAux_ne_nil pat rep hrepne fuel d hdnil
              rw [List.getLast?_append_of_ne_nil rep hR, ih d hdlen, ← hd,
                List.getLast?_append_of_ne_nil pat hdnil]
          · have hcond : ¬(pat ≠ [] ∧ pat.isPrefixOf (c :: rest)) :=
              fun hc => hpre hc.2
            simp only [pyReplaceAux, if_neg hcond]
            by_cases hrnil : rest = []
            · subst hrnil
              rw [pyReplaceAux_nil_input]
            · have hR : pyReplaceAux pat rep fuel rest ≠ [] :=
                pyReplaceAux_ne_nil pat rep hrepne fuel rest hrnil
              have hlen : rest.length ≤ fuel := by
                simp only [List.length_cons] at hs; omega
              have e1 : (c :: pyReplaceAux pat rep fuel rest).getLast? =
                  (pyReplaceAux pat rep fuel rest).getLast? := by
                rw [show c :: pyReplaceAux pat rep fuel rest =
                    [c] ++ pyReplaceAux pat rep fuel rest from rfl,
                  List.getLast?_append_of_ne_nil [c] hR]
              have e2 : (c :: rest).getLast? = rest.getLast? := by
                rw [show c :: rest = [c] ++ rest from rfl,
                  List.getLast?_append_of_ne_nil [c] hrnil]
              rw [e1, e2, ih rest hlen]

theorem pyReplace_getLast_hyphen (s pat rep : List Char) (hpat : '-' ∉ pat)
    (hpatne : pat ≠ []) (hrepne : rep ≠ []) (hrep : rep.getLast? ≠ some '-') :
    ((pyReplace s pat rep).getLast? = some '-' ↔ s.getLast? = some '-') :=
  pyReplaceAux_getLast_hyphen pat rep hpat hpatne hrepne hrep s.length s le_rfl

theorem convertInline_getLast_hyphen (t : List Char) :
    ((convertInline t).getLast? = some '-' ↔ t.getLast? = some '-') := by
  unfold convertInline
  rw [pyReplace_getLast_hyphen _ sicPat noteSicTag (by decide) (by decide)
      (by decide) (by decide),
    pyReplace_getLast_hyphen _ ['*'] pbEdiTag (by decide) (by decide)
      (by decide) (by decide)]

end Hilaria

namespace HilariaClaims

open Hilaria

/-- C4: For every LineAddress with integer page and line components,
parsing its string rendering `"page.line"` yields back an equal
address: `from_str (toStr r) = some r`. -/
theorem c4_round_trip (r : LineRef) :
    LineRef.from_str (LineRef.toStr r) = some r :=
  Hilaria.from_str_toStr r

/-- C1: a data row whose address token does not parse is resolved by
incrementing the previous row's resolved address (same page, line plus
one); ingestion is total, so the failure is never fatal.  The `2.5`
then unparsable instance is in the witness. -/
theorem c1_unparsable_token_increments (rows : List Row) (i : Nat)
    (hi : i + 1 < rows.length)
    (hfail : LineRef.from_str (rows.get ⟨i + 1, hi⟩).token = none)
    (ht : i + 1 < (read_text rows).text.length)
    (ht0 : i < (read_text rows).text.length) :
    ((read_text rows).text.get ⟨i + 1, ht⟩).ref =
      (((read_text rows).text.get ⟨i, ht0⟩).ref).increment := by
  simp only [read_text] at ht ht0 ⊢
  rw [read_textAux_get_succ rows { page := 0, line := 0 } 0 i hi ht ht0]
  simp only [List.get_eq_getElem] at hfail
  simp [resolveRef, hfail]

/-- C1 witness: a row with the unparsable token `"x"` directly after a
row addressed `2.5` is resolved to `2.6`. -/
theorem c1_witness :
    ((read_text
        [{ token := ['2', '.', '5'], coptic := [], note := [] },
         { token := ['x'], coptic := [], note := [] }]).text.get
      ⟨1, by decide⟩).ref = { page := 2, line := 6 } := by
  rw [c1_unparsable_token_increments
    [{ token := ['2', '.', '5'], coptic := [], note := [] },
     { token := ['x'], coptic := [], note := [] }]
    0 (by decide) (by decide) (by decide) (by decide)]
  decide

/-- C2: when a row's token parses to a reference on the cursor's page
whose line is not `cursor.line + 1`, exactly one numbering-gap warning
naming the new reference and the cursor is emitted, and the explicit
reference becomes the cursor for the rest of the run; for rows
addressed `1.1, 1.2, 1.4` (any texts and notes) the whole run emits
exactly the warning citing `1.4` following `1.2`. -/
theorem c2_numbering_gap_warning :
    (∀ (ref : LineRef) (l : Nat) (row : Row) (rest : List Row) (a : LineRef),
      LineRef.from_str row.token = some a →
      a.page = ref.page →
      a.line ≠ ref.line + 1 →
      (read_textAux ref l (row :: rest)).warnings =
        (a, ref) :: (read_textAux a (max l row.coptic.length) rest).warnings) ∧
    (∀ t1 n1 t2 n2 t3 n3 : List Char,
      (read_text
        [{ token := ['1', '.', '1'], coptic := t1, note := n1 },
         { token := ['1', '.', '2'], coptic := t2, note := n2 },
         { token := ['1', '.', '4'], coptic := t3, note := n3 }]).warnings =
        [({ page := 1, line := 4 }, { page := 1, line := 2 })]) := by
  constructor
  · intro ref l row rest a hparse hpage hline
    simp [read_textAux, gapWarning, resolveRef, hparse, hpage, hline]
  · intro t1 n1 t2 n2 t3 n3
    have e1 : LineRef.from_str ['1', '.', '1'] =
        some { page := 1, line := 1 } := by decide
    have e2 : LineRef.from_str ['1', '.', '2'] =
        some { page := 1, line := 2 } := by decide
    have e3 : LineRef.from_str ['1', '.', '4'] =
        some { page := 1, line := 4 } := by decide
    simp [read_text, read_textAux, gapWarning, resolveRef, e1, e2, e3]

/-- C2 witness: the gap step at cursor `1.2` and explicit token `1.4`
emits exactly the warning `(1.4, 1.2)`, and the concrete
`1.1, 1.2, 1.4` run emits exactly that warning. -/
theorem c2_witness :
    (read_textAux { page := 1, line := 2 } 0
        [{ token := ['1', '.', '4'], coptic := [], note := [] }]).warnings =
      ({ page := 1, line := 4 }, { page := 1, line := 2 }) ::
        (read_textAux { page := 1, line := 4 } (max 0 ([] : List Char).length)
          []).warnings ∧
    (read_text
      [{ token := ['1', '.', '1'], coptic := [], note := [] },
       { token := ['1', '.', '2'], coptic := [], note := [] },
       { token := ['1', '.', '4'], coptic := [], note := [] }]).warnings =
      [({ page := 1, line := 4 }, { page := 1, line := 2 })] :=
  And.intro
    (c2_numbering_gap_warning.1 { page := 1, line := 2 } 0
      { token := ['1', '.', '4'], coptic := [], note := [] } []
      { page := 1, line := 4 } (by decide) (by decide) (by decide))
    (c2_numbering_gap_warning.2 [] [] [] [] [] [])

/-- C10: when every data row's token is unparsable (in particular the
very first), ingestion still succeeds and the rows are addressed
`0.1, 0.2, 0.3, ...` by repeatedly incrementing the `0.0` sentinel. -/
theorem c10_sentinel_addresses (rows : List Row)
    (hall : ∀ r ∈ rows, LineRef.from_str r.token = none)
    (i : Nat) (hi : i < (read_text rows).text.length) :
    ((read_text rows).text.get ⟨i, hi⟩).ref =
      { page := 0, line := (i : Int) + 1 } := by
  simp only [read_text] at hi ⊢
  rw [read_textAux_all_fail rows { page := 0, line := 0 } 0 hall i hi]
  simp

/-- C3: incrementing a LineAddress advances the line component by
exactly one and never alters the page component. -/
theorem c3_increment_line_same_page (r : LineRef) :
    (r.increment).line = r.line + 1 ∧ (r.increment).page = r.page :=
  And.intro rfl rfl

/-- C5: the claim expects a line with only leading whitespace (last
character not whitespace, no trailing newline) to receive the
leading-whitespace warning; the code computes its `trailing` flag from
`line.coptic[:1]` — the first character again — so the line `" a"`
instead receives the leading-and-trailing warning, and the
leading-only branch is unreachable. -/
theorem c5_failing_input_eval :
    check_whitespace_line [' ', 'a'] =
      some (WsWarning.leadingAndTrailing [' ', 'a'] [' ', 'a']) ∧
    ∀ h : List Char,
      check_whitespace_line [' ', 'a'] ≠ some (WsWarning.leading h) := by
  constructor
  · decide
  · intro h hcon
    rw [show check_whitespace_line [' ', 'a'] =
        some (WsWarning.leadingAndTrailing [' ', 'a'] [' ', 'a']) from by decide]
      at hcon
    simp at hcon

/-- C6: the period rule and the middle-dot behaviour hold, but in the
comma branch the code reports `line.coptic.find('.')` — necessarily
`-1` there, placing the caret at column 0 — instead of the position of
the first comma (offset 1 in `"a,b"`). -/
theorem c6_failing_input_eval :
    check_punctuation_line ['\u00B7'] = none ∧
    check_punctuation_line ['a', '.', 'b', '.'] = some (PunctError.period 1) ∧
    check_punctuation_line ['a', ',', 'b'] = some (PunctError.comma (-1)) ∧
    pyFind ',' ['a', ',', 'b'] = 1 := by
  decide

/-- C7 counterexample: in the line `"̄aaā"` the two macron
offsets are 0 and 4 — no two successive offsets differ by exactly 2 —
yet the scan, whose `last` variable starts at `-2`, still emits an
adjacent-macron warning, because the first occurrence sits at
offset 0. -/
theorem c7_counterexample :
    0 < check_macrons_adjacent ['\u0304', 'a', 'a', 'a', '\u0304'] ∧
    specSuccGapTwo
      (charOffsets '\u0304' ['\u0304', 'a', 'a', 'a', '\u0304']) = false := by
  decide

/-- C7 amended: for a line holding at least two combining macrons, the
adjacent-macron warning fires exactly when two successive occurrence
offsets differ by exactly 2, or when the first occurrence sits at
offset 0 (an artifact of the `last = -2` initialization); in
particular, when the line does not begin with a macron and successive
occurrences are separated by two or more base characters, no warning
fires. -/
theorem c7_adjacent_macron_amended (coptic : List Char)
    (h : 1 < coptic.count '\u0304') :
    0 < check_macrons_adjacent coptic ↔
      specSuccGapTwo (charOffsets '\u0304' coptic) = true ∨
        (charOffsets '\u0304' coptic).head? = some 0 := by
  simp only [check_macrons_adjacent, if_pos h]
  rw [adjacentMacronAux_pos_iff]
  constructor
  · intro hh
    rcases hh with hh | hh
    · exact Or.inr (by simpa using hh)
    · exact Or.inl hh
  · intro hh
    rcases hh with hh | hh
    · exact Or.inr hh
    · exact Or.inl (by simpa using hh)

/-- C7 witness: `"āb̄"` holds macrons at offsets 1 and 3 —
a successive gap of exactly 2 — and the warning fires. -/
theorem c7_witness :
    0 < check_macrons_adjacent ['a', '\u0304', 'b', '\u0304'] :=
  (c7_adjacent_macron_amended ['a', '\u0304', 'b', '\u0304'] (by decide)).mpr
    (Or.inl (by decide))

/-- C8: rendering a two-line document whose lines share a page emits
exactly one opening page-break marker, then the two line-break markers
with their line numbers and converted texts, then exactly one closing
page-break marker, with no page-break marker between the two lines:
the output is literally that concatenation, so the renderer's
page-break logic fires only on the first line of the page. -/
theorem c8_two_lines_same_page :
    (∀ (r1 r2 : LineRef) (t1 n1 t2 n2 : List Char), r2.page = r1.page →
      construct_sgml
          [{ ref := r1, coptic := t1, note := n1 },
           { ref := r2, coptic := t2, note := n2 }] =
        "<!DOCTYPE SGML>\n".toList ++ pbOpenTag r1.page ++
          lbTag r1.line (convertLineText t1) ++
          lbTag r2.line (convertLineText t2) ++ "</pb>".toList) ∧
    (∀ (p : Int) (line : Line) (rest : List Line), line.ref.page = p →
      construct_sgmlAux (some p) (line :: rest) =
        lbTag line.ref.line (convertLineText line.coptic) ++
          construct_sgmlAux (some line.ref.page) rest) ∧
    (∀ (p : Int) (line : Line) (rest : List Line), line.ref.page ≠ p → p ≠ 0 →
      construct_sgmlAux (some p) (line :: rest) =
        "</pb>\n".toList ++ pbOpenTag line.ref.page ++
          lbTag line.ref.line (convertLineText line.coptic) ++
          construct_sgmlAux (some line.ref.page) rest) := by
  refine ⟨?_, ?_, ?_⟩
  · intro r1 r2 t1 n1 t2 n2 hpage
    simp [construct_sgml, construct_sgmlAux, pageDiffers, pageTruthy, hpage,
      List.append_assoc]
  · intro p line rest hpage
    simp [construct_sgmlAux, pageDiffers, hpage]
  · intro p line rest hpage hp
    simp [construct_sgmlAux, pageDiffers, pageTruthy, hpage, hp,
      List.append_assoc]

/-- C8 witness: the concrete two-line document `1.1`, `1.2` (empty
texts) renders as doctype, one page-open tag, two line tags, one
page-close tag; and one concrete step each for the same-page (no
page-break marker) and changed-page (close-then-open) cases. -/
theorem c8_witness :
    (construct_sgml
        [{ ref := { page := 1, line := 1 }, coptic := [], note := [] },
         { ref := { page := 1, line := 2 }, coptic := [], note := [] }] =
      "<!DOCTYPE SGML>\n".toList ++ pbOpenTag 1 ++
        lbTag 1 (convertLineText []) ++
        lbTag 2 (convertLineText []) ++ "</pb>".toList) ∧
    (construct_sgmlAux (some 1)
        [{ ref := { page := 1, line := 2 }, coptic := [], note := [] }] =
      lbTag 2 (convertLineText []) ++ construct_sgmlAux (some 1) []) ∧
    (construct_sgmlAux (some 1)
        [{ ref := { page := 2, line := 1 }, coptic := [], note := [] }] =
      "</pb>\n".toList ++ pbOpenTag 2 ++ lbTag 1 (convertLineText []) ++
        construct_sgmlAux (some 2) []) :=
  ⟨c8_two_lines_same_page.1 { page := 1, line := 1 } { page := 1, line := 2 }
      [] [] [] [] rfl,
    c8_two_lines_same_page.2.1 1
      { ref := { page := 1, line := 2 }, coptic := [], note := [] } [] rfl,
    c8_two_lines_same_page.2.2 1
      { ref := { page := 2, line := 1 }, coptic := [], note := [] } []
      (by decide) (by decide)⟩

/-- C9: for every line, the renderer drops a trailing hyphen from the
line's (inline-converted) text and appends nothing, and for a line not
ending in a hyphen it appends exactly one underscore; the trailing
character is tested on the original text, since the inline
substitutions preserve whether the text ends in a hyphen. -/
theorem c9_trailing_hyphen_rule (t : List Char) :
    convertLineText t =
      if t.getLast? = some '-' then (convertInline t).dropLast
      else convertInline t ++ ['_'] := by
  have h1 := convertInline_getLast_hyphen t
  simp only [convertLineText]
  by_cases h : t.getLast? = some '-'
  · rw [if_pos (h1.mpr h), if_pos h]
  · rw [if_neg (fun hc => h (h1.mp hc)), if_neg h]

/-- C10 witness: two rows with unparsable tokens are addressed `0.1`
and `0.2`. -/
theorem c10_witness :
    ((read_text
        [{ token := ['x'], coptic := [], note := [] },
         { token := [], coptic := [], note := [] }]).text.get
      ⟨1, by decide⟩).ref = { page := 0, line := 2 } := by
  rw [c10_sentinel_addresses
    [{ token := ['x'], coptic := [], note := [] },
     { token := [], coptic := [], note := [] }]
    (by decide) 1 (by decide)]
  decide

end HilariaClaims
